import Mathlib

set_option autoImplicit false

/-!
Shallow embedding of the chart-generation scripts of the `eafitV2`
repository (`Dashboardv3/GenerateCharts.py` and `Dashboradv2/index.py`),
together with theorems settling the specification claims about them.

Conventions of the embedding:
* A CSV cell of a numeric-or-text column is a `Cell`: `Cell.num q` is a
  cell the CSV reader parsed as a number, `Cell.str s` a non-numeric text
  cell, `Cell.nan` a missing value (pandas NaN).
* A dataframe row is a `Row` whose fields carry the source column names
  (transliterated); column-name whitespace stripping is implicit in the
  field representation.
* `pd.to_numeric(col, errors=coerce)` is `coerceCell` (non-numeric text
  becomes the null marker `none`), `.fillna(0)` on top of it is
  `coerceFill0`.
* `pandas.groupby` sorts its group keys; this is `sortBy` applied to the
  distinct keys (`uniqueFirst`).
-/

/-- A cell of the loaded CSV table: a parsed number, a non-numeric text
value, or a missing value (NaN). -/
inductive Cell where
  | num (q : ℚ)
  | str (s : String)
  | nan
deriving DecidableEq, Repr

/-- One row of `empresasEafit.csv` (columns used by the scripts; names as
in the source, with whitespace already stripped as by the loaders). -/
structure Row where
  razonSocial : String
  macrosector : String
  bloque : String
  nombrePilar : String
  variableName : String
  valoracionPonderada : Cell
  ingresosOperacionales : Cell
  anoFundacion : Cell
deriving DecidableEq, Repr

/-- `pd.to_numeric(_, errors=coerce)` on one cell: numbers pass through,
non-numeric text and NaN become the null marker `none`. -/
def coerceCell : Cell → Option ℚ
  | Cell.num q => some q
  | Cell.str _ => none
  | Cell.nan => none

/-- `pd.to_numeric(_, errors=coerce).fillna(0)` on one cell. -/
def coerceFill0 (c : Cell) : ℚ :=
  (coerceCell c).getD 0

/-- `pd.to_numeric(_, errors=coerce)` kept as a cell (NaN stays NaN),
as in line 260 of `GenerateCharts.py`. -/
def toNumericCoerce (c : Cell) : Cell :=
  match coerceCell c with
  | some q => Cell.num q
  | none => Cell.nan

/-- Numeric content of a cell of an already-coerced numeric column. -/
def cellNum : Cell → ℚ
  | Cell.num q => q
  | _ => 0

/-- Whether a cell is a parsed number. -/
def isNumCell : Cell → Bool
  | Cell.num _ => true
  | _ => false

/-- The distinct elements of a list, keeping the first occurrence of each,
in order of first appearance (the behaviour of `pd.unique` and of the
distinct group keys before sorting). -/
def uniqueFirst {α : Type} [DecidableEq α] : List α → List α
  | [] => []
  | a :: l => a :: uniqueFirst (l.filter (fun x => x ≠ a))
termination_by l => l.length
decreasing_by
  simp only [List.length_cons]
  exact Nat.lt_succ_of_le (List.length_filter_le _ _)

/-- Insertion into a list sorted by `le`. -/
def insertSorted {α : Type} (le : α → α → Bool) (a : α) : List α → List α
  | [] => [a]
  | b :: l => if le a b then a :: b :: l else b :: insertSorted le a l

/-- Insertion sort by `le` (stands in for the key sorting that
`pandas.groupby` performs on its group keys). -/
def sortBy {α : Type} (le : α → α → Bool) (l : List α) : List α :=
  l.foldr (insertSorted le) []

/-- Lexicographic comparison of character lists. -/
def charsLe : List Char → List Char → Bool
  | [], _ => true
  | _ :: _, [] => false
  | a :: as, b :: bs => if a = b then charsLe as bs else decide (a < b)

/-- Lexicographic string order used for sorting group keys. -/
def strLe (a b : String) : Bool := charsLe a.data b.data

/-- Lexicographic order on string pairs, for two-column group keys. -/
def strPairLe (a b : String × String) : Bool :=
  if a.1 = b.1 then strLe a.2 b.2 else strLe a.1 b.1

/-- The sorted distinct values of a key column: the index of a pandas
`groupby` over that key. -/
def sortedKeys (t : List Row) (key : Row → String) : List String :=
  sortBy strLe (uniqueFirst (t.map key))

theorem sortBy_cons {α : Type} (le : α → α → Bool) (a : α) (l : List α) :
    sortBy le (a :: l) = insertSorted le a (sortBy le l) := rfl

theorem mem_insertSorted {α : Type} (le : α → α → Bool) (a x : α) :
    ∀ l : List α, x ∈ insertSorted le a l ↔ x = a ∨ x ∈ l := by
  intro l
  induction l with
  | nil => simp [insertSorted]
  | cons b l ih =>
    simp only [insertSorted]
    by_cases h : le a b = true
    · rw [if_pos h]
      simp [List.mem_cons]
    · rw [if_neg h]
      simp only [List.mem_cons, ih]
      tauto

theorem mem_sortBy {α : Type} (le : α → α → Bool) (x : α) (l : List α) :
    x ∈ sortBy le l ↔ x ∈ l := by
  induction l with
  | nil => simp [sortBy]
  | cons a l ih =>
    rw [sortBy_cons, mem_insertSorted]
    simp [List.mem_cons, ih]

theorem mem_uniqueFirst {α : Type} [DecidableEq α] (x : α) :
    ∀ l : List α, x ∈ uniqueFirst l ↔ x ∈ l := by
  intro l
  induction l using uniqueFirst.induct with
  | case1 => simp [uniqueFirst]
  | case2 a l ih =>
    simp only [uniqueFirst, List.mem_cons, ih, List.mem_filter]
    by_cases hxa : x = a
    · simp [hxa]
    · simp [hxa]

theorem nodup_uniqueFirst {α : Type} [DecidableEq α] :
    ∀ l : List α, (uniqueFirst l).Nodup := by
  intro l
  induction l using uniqueFirst.induct with
  | case1 => simp [uniqueFirst]
  | case2 a l ih =>
    simp only [uniqueFirst, List.nodup_cons]
    refine ⟨?_, ih⟩
    rw [mem_uniqueFirst]
    simp [List.mem_filter]

theorem nodup_insertSorted {α : Type} (le : α → α → Bool) (a : α)
    (l : List α) (ha : a ∉ l) (hl : l.Nodup) :
    (insertSorted le a l).Nodup := by
  induction l with
  | nil => simp [insertSorted]
  | cons b l ih =>
    simp only [insertSorted]
    rcases List.nodup_cons.mp hl with ⟨hbl, hl'⟩
    have hab : a ≠ b := fun h => ha (h ▸ List.mem_cons_self b l)
    have hal : a ∉ l := fun h => ha (List.mem_cons_of_mem _ h)
    by_cases h : le a b = true
    · simp only [h, if_true]
      refine List.nodup_cons.mpr ⟨?_, hl⟩
      simp [List.mem_cons, hab, hal]
    · simp only [h, if_false]
      refine List.nodup_cons.mpr ⟨?_, ih hal hl'⟩
      rw [mem_insertSorted]
      rintro (h1 | h1)
      · exact hab h1.symm
      · exact hbl h1

theorem nodup_sortBy {α : Type} (le : α → α → Bool) (l : List α)
    (hl : l.Nodup) : (sortBy le l).Nodup := by
  induction l with
  | nil => simp [sortBy]
  | cons a l ih =>
    rw [sortBy_cons]
    rcases List.nodup_cons.mp hl with ⟨hal, hl'⟩
    refine nodup_insertSorted le a _ ?_ (ih hl')
    rw [mem_sortBy]
    exact hal

theorem nodup_sortedKeys (t : List Row) (key : Row → String) :
    (sortedKeys t key).Nodup :=
  nodup_sortBy _ _ (nodup_uniqueFirst _)

theorem mem_sortedKeys (t : List Row) (key : Row → String) (x : String) :
    x ∈ sortedKeys t key ↔ x ∈ t.map key := by
  unfold sortedKeys
  rw [mem_sortBy, mem_uniqueFirst]

/-!
## Dataset and brand loading

`Dashboardv3/GenerateCharts.py` (lines 64-66) reads the CSV, strips the
column names and drops the rows whose `Macrosector` is one of five
sentinel values.  `Dashboradv2/index.py` (`setup_environment`, lines
10-57) reads the CSV and the brand JSON inside a `try` that catches
`FileNotFoundError`, prints a message naming the missing file and returns
`(None, None)`; it applies no row filtering.  `GenerateCharts.py` opens
`eafitBrand.json` (line 17) and the CSV (line 64) at module level with no
handler, so a missing file raises.
-/

/-- The sentinel `Macrosector` values dropped by the v3 loader
(`GenerateCharts.py` line 66). -/
def sentinelSectors : List String := ["0", "No", "No informa", "SI", "Si"]

/-- The v3 loaded table (`GenerateCharts.py` line 66): rows whose
`Macrosector` is a sentinel value are excluded. -/
def raw_data (rows : List Row) : List Row :=
  rows.filter (fun r => !(sentinelSectors.contains r.macrosector))

/-- Brand configuration parsed from `eafitBrand.json`; only its presence
matters to the claims, its fields are opaque styling data. -/
structure BrandConfig where
  chartColors : List String
deriving DecidableEq, Repr

/-- The input files a run may or may not find on disk. -/
structure FileSys where
  empresasEafitCsv : Option (List Row)
  eafitBrandJson : Option BrandConfig
deriving DecidableEq, Repr

/-- The error message printed by `setup_environment` when a file is
missing (`index.py` line 29), keyed by the missing file name. -/
def missingFileMsg (filename : String) : String :=
  "Error: No se encontró el archivo " ++ filename ++
    ". Asegúrate de que los archivos empresasEafit.csv y eafitBrand.json estén en el mismo directorio."

/-- `setup_environment` of `Dashboradv2/index.py` (lines 10-57): loads the
CSV, then the brand JSON; on `FileNotFoundError` prints a message naming
the missing file and returns `None, None`.  Result: the optional pair
together with the printed log lines. -/
def setup_environment (fs : FileSys) :
    Option (List Row × BrandConfig) × List String :=
  match fs.empresasEafitCsv with
  | none => (none, [missingFileMsg "empresasEafit.csv"])
  | some df =>
    match fs.eafitBrandJson with
    | none => (none, [missingFileMsg "eafitBrand.json"])
    | some brand => (some (df, brand), ["Entorno configurado exitosamente."])

/-- The 15 chart files written by a successful v2 run
(`index.py`, `main`, lines 314-338). -/
def v2ChartFiles : List String :=
  ["01_radar_macroeconomic.html", "02_bar_performance_by_pillar.html",
   "03_treemap_companies_by_sector.html", "04_box_performance_distribution.html",
   "05_scatter_income_vs_performance.html", "06_bar_multinational_comparison.html",
   "07_bar_listed_comparison.html", "08_sunburst_blocks_and_pillars.html",
   "09_bar_top10_companies.html", "10_bar_bottom10_companies.html",
   "11_histogram_foundation_year.html", "12_pie_property_type.html",
   "13_scatter_materiality_vs_performance.html", "14_bar_performance_by_macrosector.html",
   "15_bar_family_business_comparison.html"]

/-- `main` of `Dashboradv2/index.py` (lines 314-338): runs
`setup_environment`; if it returned `None, None` no chart is generated,
otherwise all 15 charts are written.  Result: printed log lines and the
list of chart files produced. -/
def v2Main (fs : FileSys) : List String × List String :=
  match setup_environment fs with
  | (none, logs) => (logs, [])
  | (some _, logs) => (logs ++ ["--- Proceso de generación de gráficos completado. ---"], v2ChartFiles)

/-- The 17 chart files written by a successful v3 run. -/
def v3ChartFiles : List String :=
  ["01_radar_macroeconomic.html", "02_heatmap_performance.html",
   "03_violin_plot_performance.html", "04_treemap_sustainability.html",
   "05_bubble_chart_sustainability_vs_age.html",
   "06_parallel_coordinates_sustainability_profiles.html",
   "07_sankey_diagram_sustainability_flows.html",
   "08_sunburst_performance_hierarchy.html",
   "09_correlation_matrix_sustainability_pillars.html",
   "10_diverging_bar_performance_vs_sector.html",
   "11_boxplot_performance_by_property_type.html",
   "12_density_plot_multinational_vs_national.html",
   "13_variable_importance_heatmap.html",
   "14_scatter_trend_income_vs_sustainability.html",
   "15_chord_alternative_macrosector_vs_pillar.html",
   "16_nested_bars_variables_by_pillar_and_sector.html",
   "17_nested_scatter_variables_by_pillar_and_sector.html"]

/-- The module-level run of `Dashboardv3/GenerateCharts.py`: line 17 opens
`eafitBrand.json` and line 64 opens the CSV, both without a handler, so a
missing file raises an unhandled `FileNotFoundError` before any chart is
produced. -/
def v3Run (fs : FileSys) : Except String (List String) :=
  match fs.eafitBrandJson with
  | none => Except.error "FileNotFoundError: eafitBrand.json"
  | some _ =>
    match fs.empresasEafitCsv with
    | none => Except.error "FileNotFoundError: empresasEafit.csv"
    | some _ => Except.ok v3ChartFiles

/-!
## In-place numeric coercion in v3 (claim C1)

`GenerateCharts.py` mutates the module-level `raw_data` twice after
loading: lines 222-223 (before chart 4) overwrite `valoracionPonderada`
and `Ingresos operacionales` with coerced-and-zero-filled values, and
line 260 (before chart 5) overwrites `Año de fundación` with coerced
values (NaN kept).  Charts 1-3 therefore read the raw table, chart 4 the
table after the first coercion, and charts 5-17 the table after both.
-/

/-- Lines 222-223 of `GenerateCharts.py`: in-place
`pd.to_numeric(..).fillna(0)` of the score and income columns. -/
def chart4Preprocess (t : List Row) : List Row :=
  t.map (fun r =>
    { r with
      valoracionPonderada := Cell.num (coerceFill0 r.valoracionPonderada)
      ingresosOperacionales := Cell.num (coerceFill0 r.ingresosOperacionales) })

/-- Line 260 of `GenerateCharts.py`: in-place `pd.to_numeric` of the
founding-year column (no zero fill: NaN stays). -/
def chart5Preprocess (t : List Row) : List Row :=
  t.map (fun r => { r with anoFundacion := toNumericCoerce r.anoFundacion })

/-- The state of the shared v3 table when chart `n` (1-based) runs:
charts 1-3 see the loaded table, chart 4 the score/income-coerced table,
charts 5-17 the table after the year coercion as well. -/
def tableReadByChart (t : List Row) (n : ℕ) : List Row :=
  if n ≤ 3 then t
  else if n = 4 then chart4Preprocess t
  else chart5Preprocess (chart4Preprocess t)

/-- The categorical (never-coerced) fields of a row. -/
def catFields (r : Row) : String × String × String × String × String :=
  (r.razonSocial, r.macrosector, r.bloque, r.nombrePilar, r.variableName)

/-- The table the `n`-th v2 chart procedure reads.  `main`
(`index.py` lines 314-338) passes the frame returned by
`setup_environment` to every generate function unchanged, and the only
procedures that coerce columns in place (charts 05, 11 and 13) first take
a `df.copy()` (lines 142, 233, 260) and mutate the copy, so the shared
frame reaching chart `n` is the loaded frame itself, for every `n`. -/
def v2TableReadByChart (df : List Row) (_n : ℕ) : List Row := df

/-! ## Example rows (concrete inputs for witnesses and counterexamples) -/

/-- A row with a sentinel sector value. -/
def rowNoInforma : Row :=
  { razonSocial := "ACME", macrosector := "No informa", bloque := "B1",
    nombrePilar := "P1", variableName := "V1",
    valoracionPonderada := Cell.num 10, ingresosOperacionales := Cell.num 5,
    anoFundacion := Cell.num 1990 }

/-- A fully numeric row with an informative sector. -/
def rowClean : Row :=
  { razonSocial := "ACME", macrosector := "Industria", bloque := "B1",
    nombrePilar := "P1", variableName := "V1",
    valoracionPonderada := Cell.num 10, ingresosOperacionales := Cell.num 5,
    anoFundacion := Cell.num 1990 }

/-- A row whose score cell is non-numeric text. -/
def rowBadScore : Row :=
  { razonSocial := "ACME", macrosector := "Industria", bloque := "B1",
    nombrePilar := "P1", variableName := "V1",
    valoracionPonderada := Cell.str "N/A", ingresosOperacionales := Cell.num 5,
    anoFundacion := Cell.num 1990 }

/-- A brand configuration value for concrete runs. -/
def brand0 : BrandConfig := { chartColors := ["#001A70"] }

/-! ## Claim C3 -/

theorem raw_data_mem (rows : List Row) (r : Row) :
    r ∈ raw_data rows ↔ r ∈ rows ∧ ¬ r.macrosector ∈ sentinelSectors := by
  simp [raw_data, List.mem_filter]

/-- C3 (counterexample): the claim says the loaded table excludes every
row whose sector is a sentinel value, but the v2 loader
(`setup_environment`) applies no sentinel filtering: a table consisting of
one `"No informa"` row is returned unchanged. -/
theorem C3_counterexample :
    rowNoInforma.macrosector ∈ sentinelSectors ∧
      (setup_environment ⟨some [rowNoInforma], some brand0⟩).1 =
        some ([rowNoInforma], brand0) := by
  constructor
  · decide
  · rfl

/-- C3 (amended): in the v3 variant the loaded table `raw_data` excludes
exactly the rows whose `Macrosector` is one of the five sentinel values
and retains all others; the v2 variant's loader returns the CSV rows
unchanged, with no sentinel filtering. -/
theorem C3_sentinel_rows_excluded (rows : List Row) (r : Row) (fs : FileSys)
    (df : List Row) (brand : BrandConfig)
    (hcsv : fs.empresasEafitCsv = some df)
    (hbrand : fs.eafitBrandJson = some brand) :
    (r ∈ raw_data rows ↔ r ∈ rows ∧ ¬ r.macrosector ∈ sentinelSectors) ∧
      (setup_environment fs).1 = some (df, brand) := by
  refine ⟨raw_data_mem rows r, ?_⟩
  simp [setup_environment, hcsv, hbrand]

/-- Witness for `C3_sentinel_rows_excluded` at a concrete table and file
system. -/
theorem C3_sentinel_rows_excluded_witness :
    (rowNoInforma ∈ raw_data [rowClean, rowNoInforma] ↔
      rowNoInforma ∈ [rowClean, rowNoInforma] ∧
        ¬ rowNoInforma.macrosector ∈ sentinelSectors) ∧
      (setup_environment ⟨some [rowClean, rowNoInforma], some brand0⟩).1 =
        some ([rowClean, rowNoInforma], brand0) :=
  C3_sentinel_rows_excluded [rowClean, rowNoInforma] rowNoInforma
    ⟨some [rowClean, rowNoInforma], some brand0⟩ [rowClean, rowNoInforma]
    brand0 rfl rfl

/-! ## Claim C4 -/

/-- C4: when a required input file is missing, the v2 variant produces no
chart and prints a message naming the missing file, and the v3 variant
raises an unhandled error; neither produces a chart. -/
theorem C4_missing_input_no_charts (fs : FileSys)
    (h : fs.empresasEafitCsv = none ∨ fs.eafitBrandJson = none) :
    (v2Main fs).2 = [] ∧
      ((v2Main fs).1 = [missingFileMsg "empresasEafit.csv"] ∨
        (v2Main fs).1 = [missingFileMsg "eafitBrand.json"]) ∧
      ∃ e, v3Run fs = Except.error e := by
  obtain ⟨csv, brand⟩ := fs
  cases csv with
  | none =>
    cases brand with
    | none => exact ⟨rfl, Or.inl rfl, "FileNotFoundError: eafitBrand.json", rfl⟩
    | some b => exact ⟨rfl, Or.inl rfl, "FileNotFoundError: empresasEafit.csv", rfl⟩
  | some df =>
    cases brand with
    | none => exact ⟨rfl, Or.inr rfl, "FileNotFoundError: eafitBrand.json", rfl⟩
    | some b => simp at h

/-- Witness for `C4_missing_input_no_charts` with both files absent. -/
theorem C4_missing_input_no_charts_witness :
    (v2Main ⟨none, none⟩).2 = [] ∧
      ((v2Main ⟨none, none⟩).1 = [missingFileMsg "empresasEafit.csv"] ∨
        (v2Main ⟨none, none⟩).1 = [missingFileMsg "eafitBrand.json"]) ∧
      ∃ e, v3Run ⟨none, none⟩ = Except.error e :=
  C4_missing_input_no_charts ⟨none, none⟩ (Or.inl rfl)

/-! ## Claim C1 -/

theorem catFields_chart4Preprocess (t : List Row) :
    (chart4Preprocess t).map catFields = t.map catFields := by
  simp only [chart4Preprocess, List.map_map]
  rfl

theorem catFields_chart5Preprocess (t : List Row) :
    (chart5Preprocess t).map catFields = t.map catFields := by
  simp only [chart5Preprocess, List.map_map]
  rfl

theorem chart4Preprocess_clean (t : List Row)
    (h : ∀ r ∈ t, isNumCell r.valoracionPonderada ∧
      isNumCell r.ingresosOperacionales) :
    chart4Preprocess t = t := by
  induction t with
  | nil => rfl
  | cons r t ih =>
    obtain ⟨⟨h1, h2⟩, hrest⟩ :
        (isNumCell r.valoracionPonderada ∧ isNumCell r.ingresosOperacionales) ∧
          ∀ x ∈ t, isNumCell x.valoracionPonderada ∧
            isNumCell x.ingresosOperacionales := by
      constructor
      · exact h r (List.mem_cons_self r t)
      · exact fun x hx => h x (List.mem_cons_of_mem r hx)
    simp only [chart4Preprocess, List.map_cons] at *
    rw [ih hrest]
    congr 1
    cases hv : r.valoracionPonderada <;> cases hi : r.ingresosOperacionales <;>
      simp [isNumCell, hv, hi] at h1 h2 ⊢ <;>
      simp [coerceFill0, coerceCell, ← hv, ← hi]

theorem chart5Preprocess_clean (t : List Row)
    (h : ∀ r ∈ t, isNumCell r.anoFundacion) :
    chart5Preprocess t = t := by
  induction t with
  | nil => rfl
  | cons r t ih =>
    have h1 := h r (List.mem_cons_self r t)
    have hrest : ∀ x ∈ t, isNumCell x.anoFundacion :=
      fun x hx => h x (List.mem_cons_of_mem r hx)
    simp only [chart5Preprocess, List.map_cons] at *
    rw [ih hrest]
    congr 1
    cases hv : r.anoFundacion <;> simp [isNumCell, hv] at h1 ⊢ <;>
      simp [toNumericCoerce, coerceCell, ← hv]

theorem tableReadByChart_late (t : List Row) (n : ℕ) (hn : 5 ≤ n) :
    tableReadByChart t n = chart5Preprocess (chart4Preprocess t) := by
  have h3 : ¬ n ≤ 3 := by omega
  have h4 : n ≠ 4 := by omega
  simp [tableReadByChart, h3, h4]

/-- C1 (counterexample): the claim says the shared table is never mutated
in place, so any two chart procedures read the same table; but in v3 the
coercion before chart 4 (`GenerateCharts.py` lines 222-223) overwrites the
score column in place, so chart 4 reads different cell values than chart 3
on a table holding a non-numeric score. -/
theorem C1_counterexample :
    tableReadByChart [rowBadScore] 3 ≠ tableReadByChart [rowBadScore] 4 := by
  decide

/-- C1 (amended): the shared v3 table is mutated only by the in-place
numeric coercions run before charts 4 and 5, which overwrite the score,
income and year columns and leave the categorical columns and the row
count unchanged; every chart from 5 on reads the same table, and when all
three numeric columns already hold parsed numbers no mutation occurs at
all, so every chart reads the identical table. -/
theorem C1_mutation_scope (t : List Row) :
    (∀ n, (tableReadByChart t n).map catFields = t.map catFields) ∧
      (∀ n, (tableReadByChart t n).length = t.length) ∧
      (∀ n m, 5 ≤ n → 5 ≤ m →
        tableReadByChart t n = tableReadByChart t m) ∧
      ((∀ r ∈ t, isNumCell r.valoracionPonderada ∧
          isNumCell r.ingresosOperacionales ∧ isNumCell r.anoFundacion) →
        ∀ n m, tableReadByChart t n = tableReadByChart t m) ∧
      (∀ (df : List Row) (n m : ℕ),
        v2TableReadByChart df n = v2TableReadByChart df m) := by
  have hcat : ∀ n, (tableReadByChart t n).map catFields = t.map catFields := by
    intro n
    by_cases h3 : n ≤ 3
    · simp [tableReadByChart, h3]
    · by_cases h4 : n = 4
      · simp [tableReadByChart, h3, h4, catFields_chart4Preprocess]
      · simp [tableReadByChart, h3, h4, catFields_chart4Preprocess,
          catFields_chart5Preprocess]
  refine ⟨hcat, ?_, ?_, ?_, fun df n m => rfl⟩
  · intro n
    have := congrArg List.length (hcat n)
    simpa using this
  · intro n m hn hm
    rw [tableReadByChart_late t n hn, tableReadByChart_late t m hm]
  · intro hclean n m
    have h4 : chart4Preprocess t = t :=
      chart4Preprocess_clean t (fun r hr => ⟨(hclean r hr).1, (hclean r hr).2.1⟩)
    have h5 : chart5Preprocess t = t :=
      chart5Preprocess_clean t (fun r hr => (hclean r hr).2.2)
    have hstate : ∀ k, tableReadByChart t k = t := by
      intro k
      by_cases hk3 : k ≤ 3
      · simp [tableReadByChart, hk3]
      · by_cases hk4 : k = 4
        · simp [tableReadByChart, hk3, hk4, h4]
        · simp [tableReadByChart, hk3, hk4, h4, h5]
    rw [hstate n, hstate m]

/-- Witness for `C1_mutation_scope` at a concrete clean table. -/
theorem C1_mutation_scope_witness :
    tableReadByChart [rowClean] 1 = tableReadByChart [rowClean] 9 ∧
      v2TableReadByChart [rowClean] 1 = v2TableReadByChart [rowClean] 9 :=
  ⟨(C1_mutation_scope [rowClean]).2.2.2.1 (by decide) 1 9,
    (C1_mutation_scope [rowClean]).2.2.2.2 [rowClean] 1 9⟩

/-!
## Company-level aggregation (v3 chart 4, `GenerateCharts.py` lines 224-229)

`company_agg_data` groups the (already coerced) table by `Razón social`,
sums the score, takes the first income and first sector of each group, and
then keeps only companies with positive income.
-/

/-- The rows of one company group. -/
def companyRows (t : List Row) (c : String) : List Row :=
  t.filter (fun r => r.razonSocial == c)

/-- Pandas `first` aggregation of a cell column over a group (NaN on an
empty group). -/
def firstCell (rs : List Row) (f : Row → Cell) : Cell :=
  match rs with
  | [] => Cell.nan
  | r :: _ => f r

/-- Pandas `first` aggregation of a string column over a group. -/
def firstStr (rs : List Row) (f : Row → String) : String :=
  match rs with
  | [] => ""
  | r :: _ => f r

/-- One row of the company-level aggregate of `GenerateCharts.py`
lines 224-228. -/
structure CompanyAgg where
  razonSocial : String
  puntajeTotalSostenibilidad : ℚ
  ingresosOperacionales : ℚ
  macrosector : String
deriving DecidableEq, Repr

/-- The aggregate row of one company (sum of scores, first income, first
sector), computed over the coerced table. -/
def mkCompanyAgg (d : List Row) (c : String) : CompanyAgg :=
  let rs := companyRows d c
  { razonSocial := c
    puntajeTotalSostenibilidad :=
      (rs.map (fun r => cellNum r.valoracionPonderada)).sum
    ingresosOperacionales := cellNum (firstCell rs (·.ingresosOperacionales))
    macrosector := firstStr rs (·.macrosector) }

/-- Lines 224-228: `raw_data.groupby(Razón social).agg(...)` over the
table as mutated before chart 4. -/
def companyAggGrouped (t : List Row) : List CompanyAgg :=
  (sortedKeys (chart4Preprocess t) (·.razonSocial)).map
    (mkCompanyAgg (chart4Preprocess t))

/-- Line 229: keep only the companies with positive (coerced) income. -/
def company_agg_data (t : List Row) : List CompanyAgg :=
  (companyAggGrouped t).filter (fun a => decide (0 < a.ingresosOperacionales))

/-- Line 526: `scatter_data = company_agg_data[Ingresos_Operacionales > 0]`
(a second filter on the already filtered aggregate). -/
def scatter_data (t : List Row) : List CompanyAgg :=
  (company_agg_data t).filter (fun a => decide (0 < a.ingresosOperacionales))

theorem razonSocial_chart4Preprocess (t : List Row) :
    (chart4Preprocess t).map (·.razonSocial) = t.map (·.razonSocial) := by
  simp only [chart4Preprocess, List.map_map]
  rfl

theorem companyRows_chart4Preprocess (t : List Row) (c : String) :
    companyRows (chart4Preprocess t) c = chart4Preprocess (companyRows t c) := by
  simp only [companyRows, chart4Preprocess, List.filter_map]
  rfl

/-- Summing a coerced-and-zero-filled column equals summing only its
numeric entries. -/
theorem sum_coerceFill0_eq_filterMap (cs : List Cell) :
    (cs.map coerceFill0).sum = (cs.filterMap coerceCell).sum := by
  induction cs with
  | nil => rfl
  | cons c cs ih => cases c <;> simp [coerceFill0, coerceCell, ih]

theorem score_sum_chart4 (rs : List Row) :
    ((chart4Preprocess rs).map (fun r => cellNum r.valoracionPonderada)).sum =
      ((rs.map (·.valoracionPonderada)).filterMap coerceCell).sum := by
  have h1 : (chart4Preprocess rs).map (fun r => cellNum r.valoracionPonderada) =
      rs.map (fun r => coerceFill0 r.valoracionPonderada) := by
    simp only [chart4Preprocess, List.map_map]
    rfl
  have h2 : rs.map (fun r => coerceFill0 r.valoracionPonderada) =
      (rs.map (·.valoracionPonderada)).map coerceFill0 := by
    simp [List.map_map]
  rw [h1, h2, sum_coerceFill0_eq_filterMap]

/-- The numeric-only score sum of one company: the value the claim says a
sum aggregation produces when non-numeric cells are present. -/
def numericScoreSum (t : List Row) (c : String) : ℚ :=
  (((companyRows t c).map (·.valoracionPonderada)).filterMap coerceCell).sum

theorem mkCompanyAgg_puntaje (t : List Row) (c : String) :
    (mkCompanyAgg (chart4Preprocess t) c).puntajeTotalSostenibilidad =
      numericScoreSum t c := by
  simp only [mkCompanyAgg, numericScoreSum, companyRows_chart4Preprocess]
  exact score_sum_chart4 (companyRows t c)

/-! ## Claim C2 -/

theorem numericScoreSum_append_bad (t : List Row) (c : String) (r : Row)
    (hr : coerceCell r.valoracionPonderada = none)
    (hrc : r.razonSocial = c) :
    numericScoreSum (t ++ [r]) c = numericScoreSum t c := by
  have hb : (r.razonSocial == c) = true := by
    simp [hrc]
  simp [numericScoreSum, companyRows, List.filter_append, hb,
    List.filterMap_append, hr]

/-!
## v2 chart 05 (`index.py` lines 140-168): income vs performance scatter
-/

/-- Lines 146-148: coerce the income column and zero-fill it, on a copy of
the frame. -/
def chart05Coerce (df : List Row) : List Row :=
  df.map (fun r =>
    { r with ingresosOperacionales := Cell.num (coerceFill0 r.ingresosOperacionales) })

/-- Pandas `sum` over a raw cell column: NaN cells are skipped, but a text
cell in the column makes the aggregation fail (pandas raises), which the
v2 script does not coerce away for the score column. -/
def strictSumCells : List Cell → Option ℚ
  | [] => some 0
  | Cell.num q :: cs => (strictSumCells cs).map (fun s => q + s)
  | Cell.nan :: cs => strictSumCells cs
  | Cell.str _ :: _ => none

/-- One row of `company_performance` (lines 150-154). -/
structure Comp05 where
  razonSocial : String
  totalPerformance : Option ℚ
  income : ℚ
  macrosector : String
deriving DecidableEq, Repr

/-- The `company_performance` aggregate row of one company. -/
def mkComp05 (d : List Row) (c : String) : Comp05 :=
  let rs := companyRows d c
  { razonSocial := c
    totalPerformance := strictSumCells (rs.map (·.valoracionPonderada))
    income := cellNum (firstCell rs (·.ingresosOperacionales))
    macrosector := firstStr rs (·.macrosector) }

/-- Lines 150-154: group the coerced frame by company. -/
def company_performance (df : List Row) : List Comp05 :=
  (sortedKeys (chart05Coerce df) (·.razonSocial)).map (mkComp05 (chart05Coerce df))

/-- Line 157: keep only companies with positive income (for the log
scale). -/
def plot_data (df : List Row) : List Comp05 :=
  (company_performance df).filter (fun a => decide (0 < a.income))

theorem razonSocial_chart05Coerce (df : List Row) :
    (chart05Coerce df).map (·.razonSocial) = df.map (·.razonSocial) := by
  simp only [chart05Coerce, List.map_map]
  rfl

theorem companyRows_chart05Coerce (df : List Row) (c : String) :
    companyRows (chart05Coerce df) c = chart05Coerce (companyRows df c) := by
  simp only [companyRows, chart05Coerce, List.filter_map]
  rfl

/-- The income of a company aggregate equals the coerced income of the
first row of that company. -/
theorem mkComp05_income (df : List Row) (c : String) :
    (mkComp05 (chart05Coerce df) c).income =
      coerceFill0 (firstCell (companyRows df c) (·.ingresosOperacionales)) := by
  simp only [mkComp05, companyRows_chart05Coerce]
  cases h : companyRows df c with
  | nil => simp [chart05Coerce, firstCell, cellNum, coerceFill0, coerceCell]
  | cons r rs => simp [chart05Coerce, firstCell, cellNum]

theorem mem_company_performance (df : List Row) (a : Comp05) :
    a ∈ company_performance df → a = mkComp05 (chart05Coerce df) a.razonSocial := by
  intro ha
  obtain ⟨k, _, rfl⟩ := List.mem_map.mp ha
  rfl

/-! ## Claim C2 (settled against both variants) -/

theorem strictSumCells_none_of_str :
    ∀ (cs : List Cell) (s : String), Cell.str s ∈ cs → strictSumCells cs = none := by
  intro cs s h
  induction cs with
  | nil => cases h
  | cons c cs ih =>
    rcases List.mem_cons.mp h with rfl | h1
    · rfl
    · cases c with
      | num q => simp [strictSumCells, ih h1]
      | str s2 => rfl
      | nan => simpa [strictSumCells] using ih h1

/-- C2 (counterexample): the claim says a table with a non-numeric score
string never makes an aggregation raise, but the v2 chart-05 procedure
sums the score column without coercing it (`index.py` lines 150-154 coerce
only the income column), so on a one-row table whose score cell is the
text `N/A` the sum aggregation fails (pandas raises a `TypeError`,
modelled as the `none` total). -/
theorem C2_counterexample :
    (∃ s, rowBadScore.valoracionPonderada = Cell.str s) ∧
      company_performance [rowBadScore] =
        [{ razonSocial := "ACME", totalPerformance := none, income := 5,
           macrosector := "Industria" }] := by
  refine ⟨⟨"N/A", rfl⟩, ?_⟩
  simp [company_performance, sortedKeys, uniqueFirst, sortBy, insertSorted,
    chart05Coerce, mkComp05, companyRows, firstCell, firstStr, cellNum,
    coerceFill0, coerceCell, strictSumCells, rowBadScore, List.filter_cons]

/-- C2 (amended): in the v3 variant a non-numeric score cell does not
raise and contributes nothing: after the `to_numeric(..).fillna(0)`
coercion of lines 222-223 the company aggregate holds, for every company,
exactly the sum of its numeric score cells, and appending a row with a
non-numeric score leaves that sum unchanged, so the run continues.  In the
v2 variant the chart-05 procedure coerces only the income column; its sum
of the raw score column fails on a table holding a non-numeric score
string (the company total is the failed `none` aggregate). -/
theorem C2_nonnumeric_score_harmless (t : List Row) (c : String) (r : Row)
    (df : List Row) (rbad : Row)
    (hc : c ∈ t.map (·.razonSocial))
    (hr : coerceCell r.valoracionPonderada = none)
    (hrc : r.razonSocial = c)
    (hmem : rbad ∈ df)
    (hstr : ∃ s, rbad.valoracionPonderada = Cell.str s) :
    (∃ a ∈ companyAggGrouped t, a.razonSocial = c ∧
        a.puntajeTotalSostenibilidad = numericScoreSum t c) ∧
      (∃ a ∈ companyAggGrouped (t ++ [r]), a.razonSocial = c ∧
        a.puntajeTotalSostenibilidad = numericScoreSum t c) ∧
      ∃ a ∈ company_performance df, a.razonSocial = rbad.razonSocial ∧
        a.totalPerformance = none := by
  refine ⟨?_, ?_, ?_⟩
  · refine ⟨mkCompanyAgg (chart4Preprocess t) c, ?_, rfl, mkCompanyAgg_puntaje t c⟩
    apply List.mem_map_of_mem
    rw [mem_sortedKeys, razonSocial_chart4Preprocess]
    exact hc
  · refine ⟨mkCompanyAgg (chart4Preprocess (t ++ [r])) c, ?_, rfl, ?_⟩
    · apply List.mem_map_of_mem
      rw [mem_sortedKeys, razonSocial_chart4Preprocess]
      simp only [List.map_append, List.mem_append]
      exact Or.inl hc
    · rw [mkCompanyAgg_puntaje (t ++ [r]) c]
      exact numericScoreSum_append_bad t c r hr hrc
  · obtain ⟨s, hs⟩ := hstr
    refine ⟨mkComp05 (chart05Coerce df) rbad.razonSocial, ?_, rfl, ?_⟩
    · apply List.mem_map_of_mem
      rw [mem_sortedKeys, razonSocial_chart05Coerce]
      exact List.mem_map_of_mem _ hmem
    · show strictSumCells
        ((companyRows (chart05Coerce df) rbad.razonSocial).map
          (·.valoracionPonderada)) = none
      apply strictSumCells_none_of_str _ s
      apply List.mem_map.mpr
      refine ⟨({ rbad with
        ingresosOperacionales := Cell.num (coerceFill0 rbad.ingresosOperacionales) } : Row),
        ?_, hs⟩
      apply List.mem_filter.mpr
      refine ⟨List.mem_map_of_mem _ hmem, by simp⟩

/-- Witness for `C2_nonnumeric_score_harmless` at a concrete one-row
table, a concrete bad appended row, and a concrete v2 table whose only
score cell is text. -/
theorem C2_nonnumeric_score_harmless_witness :
    (∃ a ∈ companyAggGrouped [rowClean], a.razonSocial = "ACME" ∧
        a.puntajeTotalSostenibilidad = numericScoreSum [rowClean] "ACME") ∧
      (∃ a ∈ companyAggGrouped ([rowClean] ++ [rowBadScore]),
        a.razonSocial = "ACME" ∧
          a.puntajeTotalSostenibilidad = numericScoreSum [rowClean] "ACME") ∧
      ∃ a ∈ company_performance [rowBadScore],
        a.razonSocial = rowBadScore.razonSocial ∧
          a.totalPerformance = none :=
  C2_nonnumeric_score_harmless [rowClean] "ACME" rowBadScore [rowBadScore]
    rowBadScore (by decide) rfl rfl (List.mem_cons_self rowBadScore [])
    ⟨"N/A", rfl⟩

/-- C8: a company appears in the log-scale income-vs-performance scatter
of `index.py` chart 05 exactly when its (coerced, zero-filled) first-row
income is strictly positive: missing and non-numeric incomes coerce to 0
and are excluded, positive incomes are included.  In the v3 variant the
scatter filtering (line 526) keeps exactly the rows of the already
income-filtered `company_agg_data`. -/
theorem C8_scatter_income_filter (df : List Row) (c : String) (t : List Row)
    (hc : c ∈ df.map (·.razonSocial)) :
    (c ∈ (plot_data df).map (·.razonSocial) ↔
      0 < coerceFill0 (firstCell (companyRows df c) (·.ingresosOperacionales))) ∧
      scatter_data t = company_agg_data t := by
  constructor
  · constructor
    · intro hmem
      obtain ⟨a, ha, rfl⟩ := List.mem_map.mp hmem
      obtain ⟨haperf, hapos⟩ := List.mem_filter.mp ha
      have hEq := mem_company_performance df a haperf
      have hpos : 0 < a.income := of_decide_eq_true hapos
      have h2 : a.income = coerceFill0
          (firstCell (companyRows df a.razonSocial) (·.ingresosOperacionales)) := by
        conv_lhs => rw [hEq]
        exact mkComp05_income df a.razonSocial
      exact h2 ▸ hpos
    · intro hpos
      refine List.mem_map.mpr ⟨mkComp05 (chart05Coerce df) c, ?_, rfl⟩
      refine List.mem_filter.mpr ⟨?_, ?_⟩
      · apply List.mem_map_of_mem
        rw [mem_sortedKeys, razonSocial_chart05Coerce]
        exact hc
      · rw [decide_eq_true_eq, mkComp05_income]
        exact hpos
  · simp [scatter_data, company_agg_data, List.filter_filter]

/-- Witness for `C8_scatter_income_filter` at a concrete table. -/
theorem C8_scatter_income_filter_witness :
    ("ACME" ∈ (plot_data [rowClean]).map (·.razonSocial) ↔
      0 < coerceFill0 (firstCell (companyRows [rowClean] "ACME")
        (·.ingresosOperacionales))) ∧
      scatter_data [rowClean] = company_agg_data [rowClean] :=
  C8_scatter_income_filter [rowClean] "ACME" [rowClean] (by decide)

/-!
## v3 chart 10 (`GenerateCharts.py` lines 408-414): diverging bars
-/

/-- Arithmetic mean of a list of rationals. -/
def qMean (xs : List ℚ) : ℚ := xs.sum / xs.length

/-- The total scores of the aggregated companies of one sector. -/
def sectorPuntajes (t : List Row) (s : String) : List ℚ :=
  ((company_agg_data t).filter (fun a => a.macrosector == s)).map
    (·.puntajeTotalSostenibilidad)

/-- Lines 409-410: mean total score per sector over `company_agg_data`. -/
def sector_avg_score (t : List Row) : List (String × ℚ) :=
  (sortBy strLe (uniqueFirst ((company_agg_data t).map (·.macrosector)))).map
    (fun s => (s, qMean (sectorPuntajes t s)))

/-- One row of `diverging_data` (lines 411-413): a company aggregate
merged with its sector mean, the difference, and the sign label. -/
structure DivergingRow extends CompanyAgg where
  promedioSector : ℚ
  diferenciaVsPromedio : ℚ
  desempenoRelativo : String
deriving DecidableEq, Repr

/-- Line 414 sort key: by sector, then by difference. -/
def divSortLe (a b : DivergingRow) : Bool :=
  if a.macrosector = b.macrosector then
    decide (a.diferenciaVsPromedio ≤ b.diferenciaVsPromedio)
  else strLe a.macrosector b.macrosector

/-- Lines 411-414: merge `company_agg_data` with `sector_avg_score` on
the sector (inner join via lookup), derive the difference column and the
`np.where` sign label, then sort. -/
def diverging_data (t : List Row) : List DivergingRow :=
  sortBy divSortLe
    ((company_agg_data t).filterMap (fun a =>
      ((sector_avg_score t).find? (fun p => p.1 == a.macrosector)).map (fun p =>
        { toCompanyAgg := a
          promedioSector := p.2
          diferenciaVsPromedio := a.puntajeTotalSostenibilidad - p.2
          desempenoRelativo :=
            if 0 ≤ a.puntajeTotalSostenibilidad - p.2 then "Superior al Promedio"
            else "Inferior al Promedio" })))

theorem find?_keyed {α : Type} (g : String → α) (s : String) :
    ∀ keys : List String, s ∈ keys →
      (keys.map (fun k => (k, g k))).find? (fun p => p.1 == s) = some (s, g s) := by
  intro keys h
  induction keys with
  | nil => cases h
  | cons k ks ih =>
    by_cases hk : k = s
    · subst hk
      simp [List.find?_cons_of_pos]
    · have hne : ((fun p : String × α => p.1 == s) (k, g k)) = false := by
        simp [hk]
      rw [List.map_cons, List.find?_cons_of_neg _ (by simp [hk])]
      apply ih
      rcases List.mem_cons.mp h with h1 | h1
      · exact absurd h1.symm hk
      · exact h1

/-- C9: every row of the diverging-bar data holds, as its derived column,
the company total score minus the mean total score of the (aggregated)
companies of its sector, and carries exactly one of the two labels
according to the sign of that difference. -/
theorem C9_diverging_difference_and_label (t : List Row) (d : DivergingRow)
    (hd : d ∈ diverging_data t) :
    d.diferenciaVsPromedio =
      d.puntajeTotalSostenibilidad - qMean (sectorPuntajes t d.macrosector) ∧
      ((d.desempenoRelativo = "Superior al Promedio" ∧
          0 ≤ d.diferenciaVsPromedio) ∨
        (d.desempenoRelativo = "Inferior al Promedio" ∧
          d.diferenciaVsPromedio < 0)) := by
  rw [diverging_data, mem_sortBy] at hd
  obtain ⟨a, ha, hmk⟩ := List.mem_filterMap.mp hd
  have hsec : a.macrosector ∈ (company_agg_data t).map (·.macrosector) :=
    List.mem_map_of_mem _ ha
  have hfind : (sector_avg_score t).find? (fun p => p.1 == a.macrosector) =
      some (a.macrosector, qMean (sectorPuntajes t a.macrosector)) := by
    rw [sector_avg_score]
    apply find?_keyed
    rw [mem_sortBy, mem_uniqueFirst]
    exact hsec
  rw [hfind, Option.map_some'] at hmk
  obtain rfl := Option.some.inj hmk
  refine ⟨rfl, ?_⟩
  by_cases hs : 0 ≤ a.puntajeTotalSostenibilidad -
      qMean (sectorPuntajes t a.macrosector)
  · left
    refine ⟨?_, hs⟩
    show (if 0 ≤ a.puntajeTotalSostenibilidad -
        qMean (sectorPuntajes t a.macrosector) then "Superior al Promedio"
      else "Inferior al Promedio") = "Superior al Promedio"
    rw [if_pos hs]
  · right
    refine ⟨?_, lt_of_not_ge hs⟩
    show (if 0 ≤ a.puntajeTotalSostenibilidad -
        qMean (sectorPuntajes t a.macrosector) then "Superior al Promedio"
      else "Inferior al Promedio") = "Inferior al Promedio"
    rw [if_neg hs]

/-- The diverging row of the one-company table `[rowClean]`. -/
def divRow0 : DivergingRow :=
  { razonSocial := "ACME", puntajeTotalSostenibilidad := 10,
    ingresosOperacionales := 5, macrosector := "Industria",
    promedioSector := 10, diferenciaVsPromedio := 0,
    desempenoRelativo := "Superior al Promedio" }

/-- Witness for `C9_diverging_difference_and_label` at a concrete table. -/
theorem C9_diverging_difference_and_label_witness :
    divRow0.diferenciaVsPromedio =
      divRow0.puntajeTotalSostenibilidad -
        qMean (sectorPuntajes [rowClean] divRow0.macrosector) ∧
      ((divRow0.desempenoRelativo = "Superior al Promedio" ∧
          0 ≤ divRow0.diferenciaVsPromedio) ∨
        (divRow0.desempenoRelativo = "Inferior al Promedio" ∧
          divRow0.diferenciaVsPromedio < 0)) :=
  C9_diverging_difference_and_label [rowClean] divRow0 (by
    norm_num [diverging_data, sortBy, insertSorted, company_agg_data,
      companyAggGrouped, sortedKeys, uniqueFirst, chart4Preprocess,
      mkCompanyAgg, companyRows, firstCell, firstStr, cellNum, coerceFill0,
      coerceCell, sector_avg_score, sectorPuntajes, qMean, divRow0, rowClean,
      List.filter, List.filterMap, List.find?])

/-!
## v3 chart 13 (`GenerateCharts.py` lines 500-506): variable-importance pivot
-/

/-- The shared table as chart 13 reads it (after both in-place coercions). -/
def chart13Table (t : List Row) : List Row := tableReadByChart t 13

/-- The sorted distinct `(Macrosector, Variable)` group keys of line 501. -/
def varImportanceKeys (t : List Row) : List (String × String) :=
  sortBy strPairLe
    (uniqueFirst ((chart13Table t).map (fun r => (r.macrosector, r.variableName))))

/-- The rows of one `(Macrosector, Variable)` group. -/
def groupRowsMV (t : List Row) (m v : String) : List Row :=
  (chart13Table t).filter (fun r => r.macrosector == m && r.variableName == v)

/-- Line 501: `groupby([Macrosector, Variable])[valoracionPonderada].mean()`. -/
def var_importance_data (t : List Row) : List ((String × String) × ℚ) :=
  (varImportanceKeys t).map (fun k =>
    (k, qMean ((groupRowsMV t k.1 k.2).map (fun r => cellNum r.valoracionPonderada))))

/-- The pivot index (lines 502-505): the distinct `Variable` values. -/
def varPivotIndex (t : List Row) : List String :=
  sortBy strLe (uniqueFirst ((chart13Table t).map (·.variableName)))

/-- The pivot columns (lines 502-505): the distinct `Macrosector` values. -/
def varPivotColumns (t : List Row) : List String :=
  sortBy strLe (uniqueFirst ((chart13Table t).map (·.macrosector)))

/-- Lines 502-506: the pivoted matrix cell at row `v` (Variable) and
column `m` (Macrosector), with `fillna(0)` for pairs without a group. -/
def var_importance_matrix (t : List Row) (v m : String) : ℚ :=
  match (var_importance_data t).find? (fun p => p.1.1 == m && p.1.2 == v) with
  | some p => p.2
  | none => 0

theorem find?_pairKeyed_mem {α : Type} (g : String × String → α) (m v : String) :
    ∀ keys : List (String × String), (m, v) ∈ keys →
      (keys.map (fun k => (k, g k))).find?
          (fun p => p.1.1 == m && p.1.2 == v) = some ((m, v), g (m, v)) := by
  intro keys h
  induction keys with
  | nil => cases h
  | cons k ks ih =>
    by_cases hk : k = (m, v)
    · subst hk
      rw [List.map_cons]
      apply List.find?_cons_of_pos
      simp
    · rw [List.map_cons, List.find?_cons_of_neg]
      · apply ih
        rcases List.mem_cons.mp h with h1 | h1
        · exact absurd h1.symm hk
        · exact h1
      · simp only [Bool.and_eq_true, beq_iff_eq]
        rintro ⟨h1, h2⟩
        apply hk
        rw [Prod.ext_iff]
        exact ⟨h1, h2⟩

theorem find?_pairKeyed_none {α : Type} (g : String × String → α) (m v : String) :
    ∀ keys : List (String × String), (m, v) ∉ keys →
      (keys.map (fun k => (k, g k))).find?
          (fun p => p.1.1 == m && p.1.2 == v) = none := by
  intro keys h
  induction keys with
  | nil => rfl
  | cons k ks ih =>
    rw [List.map_cons, List.find?_cons_of_neg]
    · exact ih (fun h1 => h (List.mem_cons_of_mem _ h1))
    · simp only [Bool.and_eq_true, beq_iff_eq]
      rintro ⟨h1, h2⟩
      apply h
      have hk : k = (m, v) := by
        rw [Prod.ext_iff]
        exact ⟨h1, h2⟩
      rw [← hk]
      exact List.mem_cons_self k ks

/-!
## v3 chart 1 (`GenerateCharts.py` lines 112-125): radar pivot

The radar aggregation runs before the line 222 coercion, so its
`groupby([Macrosector, Nombre Pilar]).mean()` reads the raw score column:
pandas skips NaN cells in a mean but raises on a text cell, modelled by
`strictMeanCells` returning `none`.
-/

/-- Pandas `mean` over a raw cell column: NaN cells are skipped in both
the sum and the count, and a text cell makes the aggregation fail (pandas
raises), modelled as `none`. -/
def strictMeanCells (cs : List Cell) : Option ℚ :=
  (strictSumCells cs).map (fun s => s / ((cs.filterMap coerceCell).length : ℚ))

/-- The shared table as chart 1 reads it (before any coercion). -/
def chart1Table (t : List Row) : List Row := tableReadByChart t 1

/-- The sorted distinct `(Macrosector, Nombre Pilar)` group keys of
line 114. -/
def radarGroupKeys (t : List Row) : List (String × String) :=
  sortBy strPairLe
    (uniqueFirst ((chart1Table t).map (fun r => (r.macrosector, r.nombrePilar))))

/-- Lines 113-116: `groupby([Macrosector, Nombre Pilar]).mean()` of the
raw score column. -/
def radar_group_means (t : List Row) : List ((String × String) × Option ℚ) :=
  (radarGroupKeys t).map (fun k =>
    (k, strictMeanCells (((chart1Table t).filter
      (fun r => r.macrosector == k.1 && r.nombrePilar == k.2)).map
        (·.valoracionPonderada))))

/-- The pivot index (line 118): the distinct `Nombre Pilar` values. -/
def radarRowCats (t : List Row) : List String :=
  sortBy strLe (uniqueFirst ((chart1Table t).map (·.nombrePilar)))

/-- The pivot columns (line 119): the distinct `Macrosector` values. -/
def radarColCats (t : List Row) : List String :=
  sortBy strLe (uniqueFirst ((chart1Table t).map (·.macrosector)))

/-- Lines 116-122: `pivot_table(index=Nombre Pilar, columns=Macrosector)`
followed by `fillna(0)`: the cell at row `p` (pillar) and column `m`
(sector); a `none` records a failed (raising) aggregation of that group. -/
def radar_final_df (t : List Row) (p m : String) : Option ℚ :=
  match (radar_group_means t).find? (fun q => q.1.1 == m && q.1.2 == p) with
  | some q => q.2
  | none => some 0

theorem chart1Table_eq (t : List Row) : chart1Table t = t := rfl

theorem strictSumCells_isSome_of_noStr :
    ∀ cs : List Cell, (∀ c ∈ cs, ∀ s, c ≠ Cell.str s) →
      ∃ q, strictSumCells cs = some q := by
  intro cs h
  induction cs with
  | nil => exact ⟨0, rfl⟩
  | cons c cs ih =>
    obtain ⟨q, hq⟩ := ih (fun x hx => h x (List.mem_cons_of_mem c hx))
    cases c with
    | num q0 => exact ⟨q0 + q, by simp [strictSumCells, hq]⟩
    | str s => exact absurd rfl (h (Cell.str s) (List.mem_cons_self _ _) s)
    | nan => exact ⟨q, by simpa [strictSumCells] using hq⟩

/-- C7: in both pivoted group-aggregate matrices the claim cites, every
`(row category, column category)` pair has a defined cell: the chart-13
matrix holds the group mean when the pair occurs in some row and the
`fillna(0)` value zero otherwise; the chart-1 radar pivot, on a table
whose score column holds no text cell (the only tables its pre-coercion
mean aggregation accepts), holds the raw group mean for present pairs and
`fillna`s absent pairs with zero, every cell being defined. -/
theorem C7_pivot_matrix_complete (t : List Row) (v m pl sec : String)
    (_hv : v ∈ varPivotIndex t) (_hm : m ∈ varPivotColumns t)
    (_hpl : pl ∈ radarRowCats t) (_hsec : sec ∈ radarColCats t) :
    (var_importance_matrix t v m =
      if (m, v) ∈ (chart13Table t).map (fun r => (r.macrosector, r.variableName))
      then qMean ((groupRowsMV t m v).map (fun r => cellNum r.valoracionPonderada))
      else 0) ∧
      ((∀ r ∈ t, ∀ s, r.valoracionPonderada ≠ Cell.str s) →
        (radar_final_df t pl sec =
          if (sec, pl) ∈ (chart1Table t).map (fun r => (r.macrosector, r.nombrePilar))
          then strictMeanCells (((chart1Table t).filter
            (fun r => r.macrosector == sec && r.nombrePilar == pl)).map
              (·.valoracionPonderada))
          else some 0) ∧
        (radar_final_df t pl sec).isSome = true) := by
  constructor
  · by_cases hmem :
        (m, v) ∈ (chart13Table t).map (fun r => (r.macrosector, r.variableName))
    · rw [if_pos hmem]
      have hk : (m, v) ∈ varImportanceKeys t := by
        rw [varImportanceKeys, mem_sortBy, mem_uniqueFirst]
        exact hmem
      rw [var_importance_matrix, var_importance_data,
        find?_pairKeyed_mem _ m v _ hk]
    · rw [if_neg hmem]
      have hk : (m, v) ∉ varImportanceKeys t := by
        rw [varImportanceKeys, mem_sortBy, mem_uniqueFirst]
        exact hmem
      rw [var_importance_matrix, var_importance_data,
        find?_pairKeyed_none _ m v _ hk]
  · intro htext
    by_cases hmem :
        (sec, pl) ∈ (chart1Table t).map (fun r => (r.macrosector, r.nombrePilar))
    · have hk : (sec, pl) ∈ radarGroupKeys t := by
        rw [radarGroupKeys, mem_sortBy, mem_uniqueFirst]
        exact hmem
      have hcell : radar_final_df t pl sec =
          strictMeanCells (((chart1Table t).filter
            (fun r => r.macrosector == sec && r.nombrePilar == pl)).map
              (·.valoracionPonderada)) := by
        rw [radar_final_df, radar_group_means,
          find?_pairKeyed_mem _ sec pl _ hk]
      have hnostr : ∀ c ∈ ((chart1Table t).filter
          (fun r => r.macrosector == sec && r.nombrePilar == pl)).map
            (·.valoracionPonderada), ∀ s, c ≠ Cell.str s := by
        intro c hc s
        obtain ⟨r, hr, rfl⟩ := List.mem_map.mp hc
        have hrt : r ∈ t := by
          have := (List.mem_filter.mp hr).1
          rwa [chart1Table_eq] at this
        exact htext r hrt s
      obtain ⟨q, hq⟩ := strictSumCells_isSome_of_noStr _ hnostr
      refine ⟨by rw [if_pos hmem, hcell], ?_⟩
      rw [hcell, strictMeanCells, hq]
      rfl
    · have hk : (sec, pl) ∉ radarGroupKeys t := by
        rw [radarGroupKeys, mem_sortBy, mem_uniqueFirst]
        exact hmem
      have hcell : radar_final_df t pl sec = some 0 := by
        rw [radar_final_df, radar_group_means,
          find?_pairKeyed_none _ sec pl _ hk]
      exact ⟨by rw [if_neg hmem, hcell], by rw [hcell]; rfl⟩

/-- A second concrete row with a different sector, variable and pillar. -/
def rowB : Row :=
  { razonSocial := "Beta", macrosector := "Servicios", bloque := "B2",
    nombrePilar := "P2", variableName := "V2",
    valoracionPonderada := Cell.num 7, ingresosOperacionales := Cell.num 3,
    anoFundacion := Cell.num 2000 }

/-- Witness for `C7_pivot_matrix_complete` at a concrete two-row table
with an absent (column, row) pair in each matrix. -/
theorem C7_pivot_matrix_complete_witness :
    (var_importance_matrix [rowClean, rowB] "V1" "Servicios" =
      if ("Servicios", "V1") ∈
          (chart13Table [rowClean, rowB]).map (fun r => (r.macrosector, r.variableName))
      then qMean ((groupRowsMV [rowClean, rowB] "Servicios" "V1").map
        (fun r => cellNum r.valoracionPonderada))
      else 0) ∧
      ((radar_final_df [rowClean, rowB] "P1" "Servicios" =
        if ("Servicios", "P1") ∈
            (chart1Table [rowClean, rowB]).map (fun r => (r.macrosector, r.nombrePilar))
        then strictMeanCells (((chart1Table [rowClean, rowB]).filter
          (fun r => r.macrosector == "Servicios" && r.nombrePilar == "P1")).map
            (·.valoracionPonderada))
        else some 0) ∧
        (radar_final_df [rowClean, rowB] "P1" "Servicios").isSome = true) :=
  ⟨(C7_pivot_matrix_complete [rowClean, rowB] "V1" "Servicios" "P1" "Servicios"
      (by rw [varPivotIndex, mem_sortBy, mem_uniqueFirst]; decide)
      (by rw [varPivotColumns, mem_sortBy, mem_uniqueFirst]; decide)
      (by rw [radarRowCats, mem_sortBy, mem_uniqueFirst]; decide)
      (by rw [radarColCats, mem_sortBy, mem_uniqueFirst]; decide)).1,
    (C7_pivot_matrix_complete [rowClean, rowB] "V1" "Servicios" "P1" "Servicios"
      (by rw [varPivotIndex, mem_sortBy, mem_uniqueFirst]; decide)
      (by rw [varPivotColumns, mem_sortBy, mem_uniqueFirst]; decide)
      (by rw [radarRowCats, mem_sortBy, mem_uniqueFirst]; decide)
      (by rw [radarColCats, mem_sortBy, mem_uniqueFirst]; decide)).2
      (by
        intro r hr s
        rcases List.mem_cons.mp hr with rfl | hr
        · simp [rowClean]
        · rcases List.mem_cons.mp hr with rfl | hr
          · simp [rowB]
          · cases hr)⟩

/-!
## v3 chart 7 (`GenerateCharts.py` lines 333-343): Sankey node list
-/

/-- The shared table as chart 7 reads it. -/
def chart7Table (t : List Row) : List Row := tableReadByChart t 7

/-- Lines 334-335: `groupby([Bloque, Nombre Pilar]).sum()` renamed to
`source`, `target`, `value`. -/
def flow1 (t : List Row) : List (String × String × ℚ) :=
  (sortBy strPairLe
      (uniqueFirst ((chart7Table t).map (fun r => (r.bloque, r.nombrePilar))))).map
    (fun k => (k.1, k.2,
      (((chart7Table t).filter
          (fun r => r.bloque == k.1 && r.nombrePilar == k.2)).map
        (fun r => cellNum r.valoracionPonderada)).sum))

/-- Lines 336-337: `groupby([Nombre Pilar, Macrosector]).sum()` renamed to
`source`, `target`, `value`. -/
def flow2 (t : List Row) : List (String × String × ℚ) :=
  (sortBy strPairLe
      (uniqueFirst ((chart7Table t).map (fun r => (r.nombrePilar, r.macrosector))))).map
    (fun k => (k.1, k.2,
      (((chart7Table t).filter
          (fun r => r.nombrePilar == k.1 && r.macrosector == k.2)).map
        (fun r => cellNum r.valoracionPonderada)).sum))

/-- Lines 338-339: concatenate the two flows and keep positive values. -/
def sankey_data (t : List Row) : List (String × String × ℚ) :=
  (flow1 t ++ flow2 t).filter (fun f => decide (0 < f.2.2))

/-- Line 340: `pd.unique(sankey_data[[source, target]].values.ravel('K'))`
traverses the two-column values array in memory order; the array of a
two-column same-dtype frame is Fortran-ordered, so the traversal is the
whole `source` column followed by the whole `target` column. -/
def sankeyTraversal (t : List Row) : List String :=
  (sankey_data t).map (·.1) ++ (sankey_data t).map (·.2.1)

/-- Line 340: the distinct nodes in first-appearance order of the
traversal. -/
def unique_nodes (t : List Row) : List String :=
  uniqueFirst (sankeyTraversal t)

/-- Line 341: `{node: i for i, node in enumerate(unique_nodes)}`. -/
def node_mapping (t : List Row) (x : String) : ℕ :=
  (unique_nodes t).indexOf x

theorem indexOf_filter_mono {α : Type} [DecidableEq α] (p : α → Bool) :
    ∀ (l : List α) (x y : α), p x = true → p y = true →
      (l.filter p).indexOf x < (l.filter p).indexOf y →
        l.indexOf x < l.indexOf y := by
  intro l
  induction l with
  | nil =>
    intro x y _ _ h
    simp [List.filter] at h
  | cons b l ih =>
    intro x y hx hy h
    by_cases hpb : p b = true
    · rw [List.filter_cons_of_pos hpb] at h
      by_cases hxb : x = b
      · subst hxb
        have hyx : y ≠ x := by
          rintro rfl
          simp at h
        rw [List.indexOf_cons_self] at *
        rw [List.indexOf_cons_ne l (fun hbx => hyx hbx.symm)]
        exact Nat.succ_pos _
      · have hxb' : b ≠ x := fun hb => hxb hb.symm
        rw [List.indexOf_cons_ne _ hxb'] at h ⊢
        have hyb : y ≠ b := by
          rintro rfl
          rw [List.indexOf_cons_self] at h
          exact Nat.not_succ_le_zero _ h
        have hyb' : b ≠ y := fun hb => hyb hb.symm
        rw [List.indexOf_cons_ne _ hyb'] at h ⊢
        exact Nat.succ_lt_succ (ih x y hx hy (Nat.lt_of_succ_lt_succ h))
    · have hpb' : ¬ p b = true := hpb
      rw [List.filter_cons_of_neg (by simpa using hpb')] at h
      have hxb : b ≠ x := by
        rintro rfl
        exact hpb (by exact hx)
      have hyb : b ≠ y := by
        rintro rfl
        exact hpb (by exact hy)
      rw [List.indexOf_cons_ne _ hxb, List.indexOf_cons_ne _ hyb]
      exact Nat.succ_lt_succ (ih x y hx hy h)

theorem uniqueFirst_indexOf_mono {α : Type} [DecidableEq α] :
    ∀ (l : List α) (i j : ℕ) (hij : i < j)
      (hj : j < (uniqueFirst l).length),
      l.indexOf ((uniqueFirst l).get ⟨i, Nat.lt_trans hij hj⟩) <
        l.indexOf ((uniqueFirst l).get ⟨j, hj⟩) := by
  intro l
  induction l using uniqueFirst.induct with
  | case1 =>
    intro i j hij hj
    simp [uniqueFirst] at hj
  | case2 a l ih =>
    intro i j hij hj
    have hju : j < (uniqueFirst (a :: l)).length := hj
    rw [uniqueFirst] at hju
    simp only [List.length_cons] at hju
    obtain ⟨j', rfl⟩ : ∃ j', j = j' + 1 := ⟨j - 1, by omega⟩
    have hj' : j' < (uniqueFirst (l.filter (fun x => x ≠ a))).length := by
      omega
    have hgetj : (uniqueFirst (a :: l)).get ⟨j' + 1, hj⟩ =
        (uniqueFirst (l.filter (fun x => x ≠ a))).get ⟨j', hj'⟩ := by
      simp [uniqueFirst]
    have hyprop : (uniqueFirst (l.filter (fun x => x ≠ a))).get ⟨j', hj'⟩ ∈
        l.filter (fun x => x ≠ a) := by
      rw [← mem_uniqueFirst]
      exact List.get_mem _ _ _
    have hymem := (List.mem_filter.mp hyprop).1
    have hyne : (uniqueFirst (l.filter (fun x => x ≠ a))).get ⟨j', hj'⟩ ≠ a := by
      have := (List.mem_filter.mp hyprop).2
      simpa using this
    cases i with
    | zero =>
      have hgeti : (uniqueFirst (a :: l)).get ⟨0, Nat.lt_trans hij hj⟩ = a := by
        simp [uniqueFirst]
      rw [hgeti, hgetj, List.indexOf_cons_self,
        List.indexOf_cons_ne l (fun hax => hyne hax.symm)]
      exact Nat.succ_pos _
    | succ i' =>
      have hi' : i' < (uniqueFirst (l.filter (fun x => x ≠ a))).length := by
        omega
      have hgeti : (uniqueFirst (a :: l)).get ⟨i' + 1, Nat.lt_trans hij hj⟩ =
          (uniqueFirst (l.filter (fun x => x ≠ a))).get ⟨i', hi'⟩ := by
        simp [uniqueFirst]
      have hxprop : (uniqueFirst (l.filter (fun x => x ≠ a))).get ⟨i', hi'⟩ ∈
          l.filter (fun x => x ≠ a) := by
        rw [← mem_uniqueFirst]
        exact List.get_mem _ _ _
      have hxmem := (List.mem_filter.mp hxprop).1
      have hxne : (uniqueFirst (l.filter (fun x => x ≠ a))).get ⟨i', hi'⟩ ≠ a := by
        have := (List.mem_filter.mp hxprop).2
        simpa using this
      rw [hgeti, hgetj,
        List.indexOf_cons_ne l (fun hax => hxne hax.symm),
        List.indexOf_cons_ne l (fun hax => hyne hax.symm)]
      apply Nat.succ_lt_succ
      apply indexOf_filter_mono (fun x => decide (x ≠ a))
      · simpa using hxne
      · simpa using hyne
      · exact ih i' j' (by omega) hj'

/-- C5: the Sankey node list contains each category of the union of the
source and target columns exactly once (no duplicates, same members as
the traversal), the id `node_mapping` assigns to the node at position `i`
is `i` itself (so ids are 0..n-1 and injective), and positions respect
first-appearance order: an earlier node first appears strictly earlier in
the traversal. -/
theorem C5_sankey_node_ids (t : List Row) (i j : ℕ)
    (hij : i < j) (hj : j < (unique_nodes t).length) :
    (unique_nodes t).Nodup ∧
      (∀ x, x ∈ unique_nodes t ↔ x ∈ sankeyTraversal t) ∧
      node_mapping t ((unique_nodes t).get ⟨i, Nat.lt_trans hij hj⟩) = i ∧
      node_mapping t ((unique_nodes t).get ⟨j, hj⟩) = j ∧
      (sankeyTraversal t).indexOf
          ((unique_nodes t).get ⟨i, Nat.lt_trans hij hj⟩) <
        (sankeyTraversal t).indexOf ((unique_nodes t).get ⟨j, hj⟩) := by
  refine ⟨nodup_uniqueFirst _, fun x => mem_uniqueFirst x _, ?_, ?_, ?_⟩
  · have h := List.indexOf_getElem
      (nodup_uniqueFirst (sankeyTraversal t)) i (Nat.lt_trans hij hj)
    simpa [node_mapping, unique_nodes, List.get_eq_getElem] using h
  · have h := List.indexOf_getElem
      (nodup_uniqueFirst (sankeyTraversal t)) j hj
    simpa [node_mapping, unique_nodes, List.get_eq_getElem] using h
  · exact uniqueFirst_indexOf_mono (sankeyTraversal t) i j hij hj

/-- The concrete two-row table has more than one distinct Sankey node. -/
theorem unique_nodes_two_rows_len :
    1 < (unique_nodes [rowClean, rowB]).length := by
  simp [unique_nodes, sankeyTraversal, sankey_data, flow1, flow2,
    chart7Table, tableReadByChart, chart4Preprocess, chart5Preprocess,
    toNumericCoerce, coerceCell, coerceFill0, cellNum, sortBy,
    insertSorted, strPairLe, strLe, charsLe, rowClean, rowB,
    uniqueFirst, List.filter_cons]

/-- Witness for `C5_sankey_node_ids` at a concrete two-row table whose
traversal holds six distinct nodes. -/
theorem C5_sankey_node_ids_witness :
    (unique_nodes [rowClean, rowB]).Nodup ∧
      (∀ x, x ∈ unique_nodes [rowClean, rowB] ↔
        x ∈ sankeyTraversal [rowClean, rowB]) ∧
      node_mapping [rowClean, rowB]
          ((unique_nodes [rowClean, rowB]).get
            ⟨0, Nat.lt_trans Nat.zero_lt_one unique_nodes_two_rows_len⟩) = 0 ∧
      node_mapping [rowClean, rowB]
          ((unique_nodes [rowClean, rowB]).get
            ⟨1, unique_nodes_two_rows_len⟩) = 1 ∧
      (sankeyTraversal [rowClean, rowB]).indexOf
          ((unique_nodes [rowClean, rowB]).get
            ⟨0, Nat.lt_trans Nat.zero_lt_one unique_nodes_two_rows_len⟩) <
        (sankeyTraversal [rowClean, rowB]).indexOf
          ((unique_nodes [rowClean, rowB]).get
            ⟨1, unique_nodes_two_rows_len⟩) :=
  C5_sankey_node_ids [rowClean, rowB] 0 1 Nat.zero_lt_one
    unique_nodes_two_rows_len

/-!
## `wrap_text` (`GenerateCharts.py` lines 82-106)

The function is embedded over `List Char` (`String.data`): Python
`len(text)` is `text.data.length`, `text.split()` is `wsSplit` (maximal
runs of non-whitespace), the loop over words with its
`(lines, current_line, current_length)` state is a `foldl` of `wrapStep`,
and the final `'<br>'.join(' '.join(line))` is `joinBr`/`joinWords`
(lines are kept as word lists and joined once at the end, which yields
the same string as joining each line eagerly).
-/

/-- Python whitespace (the separators of `str.split()`). -/
def isWS (c : Char) : Bool :=
  c == ' ' || c == '\t' || c == '\n' || c == '\r' || c == '\x0b' || c == '\x0c'

/-- `text.split()`: the maximal whitespace-free runs of the text, in
order, empty runs dropped. -/
def wsSplit : List Char → List (List Char)
  | [] => []
  | c :: rest =>
    if isWS c then wsSplit rest
    else (c :: rest.takeWhile (fun x => !isWS x)) ::
      wsSplit (rest.dropWhile (fun x => !isWS x))
termination_by l => l.length
decreasing_by
  all_goals simp only [List.length_cons]
  · omega
  · exact Nat.lt_succ_of_le (List.dropWhile_sublist _).length_le

/-- One iteration of the loop of lines 94-101: state is
`(lines, current_line, current_length)`. -/
def wrapStep (maxLength : ℕ)
    (st : List (List (List Char)) × List (List Char) × ℕ)
    (word : List Char) : List (List (List Char)) × List (List Char) × ℕ :=
  if st.2.2 + word.length + st.2.1.length > maxLength ∧ st.2.1 ≠ [] then
    (st.1 ++ [st.2.1], [word], word.length)
  else
    (st.1, st.2.1 ++ [word], st.2.2 + word.length)

/-- `' '.join(line)`. -/
def joinWords : List (List Char) → List Char
  | [] => []
  | [w] => w
  | w :: ws => w ++ ' ' :: joinWords ws

/-- The `'<br>'` line-break marker. -/
def brMark : List Char := ['<', 'b', 'r', '>']

/-- `'<br>'.join(lines)`. -/
def joinBr : List (List Char) → List Char
  | [] => []
  | [l] => l
  | l :: ls => l ++ brMark ++ joinBr ls

/-- `wrap_text` (lines 82-106): texts no longer than the threshold are
returned unchanged; otherwise the words are packed greedily into lines
and the lines joined with the break marker. -/
def wrap_text (text : String) (maxLength : ℕ := 25) : String :=
  if text.data.length ≤ maxLength then text
  else
    let words := wsSplit text.data
    let st := words.foldl (wrapStep maxLength) ([], [], 0)
    let allLines := if st.2.1 = [] then st.1 else st.1 ++ [st.2.1]
    ⟨joinBr (allLines.map joinWords)⟩

/-- The greedy packing as the specification words it: pack consecutive
words into the current line, starting a new line exactly when the current
line is nonempty and appending a space and the next word would push the
joined line past the threshold. -/
def specPack (maxLength : ℕ) :
    List (List Char) → List (List Char) → List (List (List Char))
  | cur, [] => if cur = [] then [] else [cur]
  | cur, w :: ws =>
    if cur ≠ [] ∧ (joinWords cur).length + 1 + w.length > maxLength then
      cur :: specPack maxLength [w] ws
    else specPack maxLength (cur ++ [w]) ws

theorem joinWords_length :
    ∀ ws : List (List Char), ws ≠ [] →
      (joinWords ws).length + 1 = (ws.map List.length).sum + ws.length := by
  intro ws
  induction ws with
  | nil => intro h; exact absurd rfl h
  | cons w ws ih =>
    intro _
    cases ws with
    | nil => simp [joinWords]
    | cons w' ws' =>
      have h := ih (by simp)
      simp only [joinWords, List.length_append, List.length_cons,
        List.map_cons, List.sum_cons] at *
      omega

theorem foldl_wrapStep_eq_specPack (maxLength : ℕ) :
    ∀ (ws : List (List Char)) (lines : List (List (List Char)))
      (cur : List (List Char)) (n : ℕ), n = (cur.map List.length).sum →
      (if (ws.foldl (wrapStep maxLength) (lines, cur, n)).2.1 = []
       then (ws.foldl (wrapStep maxLength) (lines, cur, n)).1
       else (ws.foldl (wrapStep maxLength) (lines, cur, n)).1 ++
         [(ws.foldl (wrapStep maxLength) (lines, cur, n)).2.1]) =
        lines ++ specPack maxLength cur ws := by
  intro ws
  induction ws with
  | nil =>
    intro lines cur n _
    simp only [List.foldl_nil, specPack]
    by_cases hcur : cur = []
    · simp [hcur]
    · simp [hcur]
  | cons w ws ih =>
    intro lines cur n hn
    simp only [List.foldl_cons]
    by_cases hc : n + w.length + cur.length > maxLength ∧ cur ≠ []
    · have hstep : wrapStep maxLength (lines, cur, n) w =
          (lines ++ [cur], [w], w.length) := by
        simp only [wrapStep]
        rw [if_pos hc]
      rw [hstep, ih (lines ++ [cur]) [w] w.length (by simp)]
      have hspec : cur ≠ [] ∧
          (joinWords cur).length + 1 + w.length > maxLength := by
        have hj := joinWords_length cur hc.2
        exact ⟨hc.2, by omega⟩
      conv_rhs => rw [specPack]
      rw [if_pos hspec]
      simp [List.append_assoc]
    · have hstep : wrapStep maxLength (lines, cur, n) w =
          (lines, cur ++ [w], n + w.length) := by
        simp only [wrapStep]
        rw [if_neg hc]
      rw [hstep, ih lines (cur ++ [w]) (n + w.length) (by simp [hn])]
      have hspec : ¬ (cur ≠ [] ∧
          (joinWords cur).length + 1 + w.length > maxLength) := by
        rintro ⟨hne, hgt⟩
        have hj := joinWords_length cur hne
        exact hc ⟨by omega, hne⟩
      conv_rhs => rw [specPack]
      rw [if_neg hspec]

/-- C6: `wrap_text` returns the text unchanged when its length is at most
the threshold, and otherwise splits it into whitespace-separated words,
packs them greedily into lines (a new line starts exactly when appending
a space and the next word would exceed the threshold), and joins the
lines with the break marker. -/
theorem C6_wrap_text_greedy (text : String) (maxLength : ℕ) :
    wrap_text text maxLength =
      if text.data.length ≤ maxLength then text
      else ⟨joinBr ((specPack maxLength [] (wsSplit text.data)).map joinWords)⟩ := by
  by_cases hlen : text.data.length ≤ maxLength
  · simp only [wrap_text, if_pos hlen]
  · simp only [wrap_text, if_neg hlen]
    have h := foldl_wrapStep_eq_specPack maxLength (wsSplit text.data) [] [] 0 rfl
    simp only [List.nil_append] at h
    rw [← h]

/-!
## Tokenizing the wrapped output (claim C10)

The claim splits `wrap_text`'s output on the `'<br>'` marker and on
whitespace.  `tokenize` performs both splits in one left-to-right scan:
an occurrence of the marker or a whitespace character ends the current
token.  `brFree` says a character list has no occurrence of the marker.
-/

/-- Whether the list starting with `c` followed by `rest` begins with the
`'<br>'` marker. -/
def brTest (c : Char) (rest : List Char) : Bool :=
  c == '<' && rest.take 3 == ['b', 'r', '>']

/-- No position of the list starts the `'<br>'` marker. -/
def brFree : List Char → Bool
  | [] => true
  | c :: rest => !brTest c rest && brFree rest

/-- The current token: characters up to the next whitespace or marker. -/
def takeTok : List Char → List Char
  | [] => []
  | c :: rest => if brTest c rest || isWS c then [] else c :: takeTok rest

/-- The remainder after the current token. -/
def dropTok : List Char → List Char
  | [] => []
  | c :: rest => if brTest c rest || isWS c then c :: rest else dropTok rest

theorem dropTok_length_le : ∀ l : List Char, (dropTok l).length ≤ l.length := by
  intro l
  induction l with
  | nil => simp [dropTok]
  | cons c rest ih =>
    simp only [dropTok]
    by_cases h : (brTest c rest || isWS c) = true
    · rw [if_pos h]
    · rw [if_neg h]
      exact Nat.le_succ_of_le ih

/-- Split a character list on whitespace and on occurrences of the
`'<br>'` marker, dropping empty tokens. -/
def tokenize : List Char → List (List Char)
  | [] => []
  | c :: rest =>
    if brTest c rest then tokenize (rest.drop 3)
    else if isWS c then tokenize rest
    else (c :: takeTok rest) :: tokenize (dropTok rest)
termination_by l => l.length
decreasing_by
  all_goals simp only [List.length_cons]
  · have := List.length_drop 3 rest
    omega
  · omega
  · exact Nat.lt_succ_of_le (dropTok_length_le rest)

/-- The head of the list (if any) is not one of `'b'`, `'r'`, `'>'`; a
marker occurrence can then not start inside a marker-free prefix and spill
over into the list. -/
def headNotBR : List Char → Prop
  | [] => True
  | c :: _ => c ≠ 'b' ∧ c ≠ 'r' ∧ c ≠ '>'

/-- The list is empty or starts with a token separator (whitespace or the
marker). -/
def stopHead : List Char → Prop
  | [] => True
  | c :: rest => brTest c rest = true ∨ isWS c = true

theorem isWS_char_facts (c : Char) (h : isWS c = true) :
    c ≠ '<' ∧ c ≠ 'b' ∧ c ≠ 'r' ∧ c ≠ '>' := by
  simp only [isWS, Bool.or_eq_true, beq_iff_eq] at h
  rcases h with ((((h | h) | h) | h) | h) | h <;> subst h <;>
    exact ⟨by decide, by decide, by decide, by decide⟩

theorem brTest_false_of_ws (c : Char) (rest : List Char) (h : isWS c = true) :
    brTest c rest = false := by
  have hc := (isWS_char_facts c h).1
  simp [brTest, hc]

/-- A marker test that fails on `w` alone still fails on `w ++ d` when
`d` does not start with `'b'`, `'r'` or `'>'`. -/
theorem brTest_append_false (c : Char) (w d : List Char)
    (hw : brTest c w = false) (hd : headNotBR d) :
    brTest c (w ++ d) = false := by
  cases hbt : brTest c (w ++ d) with
  | false => rfl
  | true =>
    exfalso
    simp only [brTest, Bool.and_eq_true, beq_iff_eq] at hbt
    obtain ⟨hc, htake⟩ := hbt
    match w, hw with
    | w0 :: w1 :: w2 :: w', hw =>
      simp only [List.cons_append, List.take_succ_cons, List.take_zero,
        List.cons.injEq, and_true] at htake
      simp [brTest, hc, htake.1, htake.2.1, htake.2.2, List.take] at hw
    | [], hw =>
      cases d with
      | nil => simp at htake
      | cons c0 d' =>
        simp only [List.nil_append, List.take_succ_cons, List.cons.injEq] at htake
        exact hd.1 htake.1
    | [w0], hw =>
      cases d with
      | nil => simp at htake
      | cons c0 d' =>
        simp only [List.cons_append, List.nil_append, List.take_succ_cons,
          List.cons.injEq] at htake
        exact hd.2.1 htake.2.1
    | [w0, w1], hw =>
      cases d with
      | nil => simp at htake
      | cons c0 d' =>
        simp only [List.cons_append, List.nil_append, List.take_succ_cons,
          List.cons.injEq] at htake
        exact hd.2.2 htake.2.2.1

theorem brFree_cons_parts {c : Char} {w : List Char}
    (h : brFree (c :: w) = true) : brTest c w = false ∧ brFree w = true := by
  simp only [brFree, Bool.and_eq_true, Bool.not_eq_true'] at h
  exact h

/-- Scanning through a whitespace-free, marker-free word followed by a
separator-headed remainder consumes exactly the word. -/
theorem takeTok_dropTok_append :
    ∀ w d : List Char, (∀ x ∈ w, isWS x = false) → brFree w = true →
      headNotBR d → stopHead d →
      takeTok (w ++ d) = w ∧ dropTok (w ++ d) = d := by
  intro w
  induction w with
  | nil =>
    intro d _ _ _ hstop
    cases d with
    | nil => exact ⟨rfl, rfl⟩
    | cons c rest =>
      have hsep : (brTest c rest || isWS c) = true := by
        rcases hstop with h | h <;> simp [h]
      constructor
      · simp only [List.nil_append, takeTok]
        rw [if_pos hsep]
      · simp only [List.nil_append, dropTok]
        rw [if_pos hsep]
  | cons a w ih =>
    intro d hws hbf hnbr hstop
    have ha : isWS a = false := hws a (List.mem_cons_self a w)
    obtain ⟨hbt, hbfw⟩ := brFree_cons_parts hbf
    have hbt' : brTest a (w ++ d) = false := brTest_append_false a w d hbt hnbr
    obtain ⟨ih1, ih2⟩ := ih d (fun x hx => hws x (List.mem_cons_of_mem a hx))
      hbfw hnbr hstop
    have hsep : (brTest a (w ++ d) || isWS a) = false := by
      simp [hbt', ha]
    constructor
    · simp only [List.cons_append, takeTok, List.append_eq]
      rw [if_neg (by simp [hsep]), ih1]
    · simp only [List.cons_append, dropTok, List.append_eq]
      rw [if_neg (by simp [hsep]), ih2]

/-- Tokenizing a nonempty whitespace-free, marker-free word followed by a
separator-headed remainder yields the word and continues. -/
theorem tokenize_word_append (w d : List Char) (hne : w ≠ [])
    (hws : ∀ x ∈ w, isWS x = false) (hbf : brFree w = true)
    (hnbr : headNotBR d) (hstop : stopHead d) :
    tokenize (w ++ d) = w :: tokenize d := by
  cases w with
  | nil => exact absurd rfl hne
  | cons a w' =>
    have ha : isWS a = false := hws a (List.mem_cons_self a w')
    obtain ⟨hbt, hbfw⟩ := brFree_cons_parts hbf
    have hbt' : brTest a (w' ++ d) = false := brTest_append_false a w' d hbt hnbr
    obtain ⟨htk, hdt⟩ := takeTok_dropTok_append w' d
      (fun x hx => hws x (List.mem_cons_of_mem a hx)) hbfw hnbr hstop
    simp only [List.cons_append, tokenize]
    rw [if_neg (by simp [hbt']), if_neg (by simp [ha]), htk, hdt]

theorem tokenize_ws_cons (c : Char) (rest : List Char) (h : isWS c = true) :
    tokenize (c :: rest) = tokenize rest := by
  simp only [tokenize]
  rw [if_neg (by simp [brTest_false_of_ws c rest h]), if_pos h]

theorem tokenize_brMark_append (rest : List Char) :
    tokenize (brMark ++ rest) = tokenize rest := by
  show tokenize ('<' :: 'b' :: 'r' :: '>' :: rest) = tokenize rest
  have hbt : brTest '<' ('b' :: 'r' :: '>' :: rest) = true := by
    simp [brTest, List.take]
  simp only [tokenize]
  rw [if_pos hbt]
  simp [List.drop]

/-- Tokenizing a space-joined line of good words followed by nothing or by
a marker-headed remainder yields the line's words and continues. -/
theorem tokenize_line_append :
    ∀ l : List (List Char), l ≠ [] →
      (∀ w ∈ l, w ≠ [] ∧ (∀ x ∈ w, isWS x = false) ∧ brFree w = true) →
      ∀ rest : List Char, (rest = [] ∨ ∃ rs, rest = brMark ++ rs) →
        tokenize (joinWords l ++ rest) = l ++ tokenize rest := by
  intro l
  induction l with
  | nil => intro h; exact absurd rfl h
  | cons w l' ih =>
    intro _ hwords rest hrest
    have hnbr : headNotBR rest := by
      rcases hrest with rfl | ⟨rs, rfl⟩
      · exact trivial
      · exact ⟨by decide, by decide, by decide⟩
    have hstop : stopHead rest := by
      rcases hrest with rfl | ⟨rs, rfl⟩
      · exact trivial
      · left
        simp [brTest, List.take, brMark]
    obtain ⟨hne, hws, hbf⟩ := hwords w (List.mem_cons_self w l')
    cases l' with
    | nil =>
      simp only [joinWords]
      rw [tokenize_word_append w rest hne hws hbf hnbr hstop]
      rfl
    | cons w2 l'' =>
      simp only [joinWords]
      have hassoc : (w ++ ' ' :: joinWords (w2 :: l'')) ++ rest =
          w ++ (' ' :: (joinWords (w2 :: l'') ++ rest)) := by
        simp [List.append_assoc]
      rw [hassoc,
        tokenize_word_append w (' ' :: (joinWords (w2 :: l'') ++ rest)) hne hws hbf
          ⟨by decide, by decide, by decide⟩ (Or.inr (by decide)),
        tokenize_ws_cons ' ' _ (by decide),
        ih (by simp) (fun x hx => hwords x (List.mem_cons_of_mem w hx)) rest hrest]
      rfl

/-- Tokenizing marker-joined lines of good words yields the concatenation
of the lines. -/
theorem tokenize_joinBr_lines :
    ∀ lines : List (List (List Char)),
      (∀ l ∈ lines, l ≠ []) →
      (∀ l ∈ lines, ∀ w ∈ l, w ≠ [] ∧ (∀ x ∈ w, isWS x = false) ∧ brFree w = true) →
      tokenize (joinBr (lines.map joinWords)) = lines.flatten := by
  intro lines
  induction lines with
  | nil =>
    intro _ _
    simp [joinBr, tokenize]
  | cons l ls ih =>
    intro hne hwords
    cases ls with
    | nil =>
      have h := tokenize_line_append l (hne l (List.mem_cons_self l []))
        (hwords l (List.mem_cons_self l [])) [] (Or.inl rfl)
      simp only [List.map, joinBr, List.flatten]
      simpa [tokenize] using h
    | cons l2 ls' =>
      have hjb : joinBr ((l :: l2 :: ls').map joinWords) =
          joinWords l ++ (brMark ++ joinBr ((l2 :: ls').map joinWords)) := by
        simp [joinBr, List.append_assoc]
      rw [hjb,
        tokenize_line_append l (hne l (List.mem_cons_self l _))
          (hwords l (List.mem_cons_self l _)) _ (Or.inr ⟨_, rfl⟩),
        tokenize_brMark_append,
        ih (fun x hx => hne x (List.mem_cons_of_mem l hx))
          (fun x hx => hwords x (List.mem_cons_of_mem l hx))]
      simp [List.flatten]

/-- Greedy packing only regroups the words: flattening the lines gives
back the pending line followed by the remaining words. -/
theorem specPack_flatten (m : ℕ) :
    ∀ (ws cur : List (List Char)), (specPack m cur ws).flatten = cur ++ ws := by
  intro ws
  induction ws with
  | nil =>
    intro cur
    by_cases hc : cur = []
    · simp [specPack, hc]
    · simp [specPack, hc]
  | cons w ws ih =>
    intro cur
    simp only [specPack]
    by_cases hc : cur ≠ [] ∧ (joinWords cur).length + 1 + w.length > m
    · rw [if_pos hc]
      simp [List.flatten, ih [w]]
    · rw [if_neg hc]
      simp [ih (cur ++ [w])]

/-- Every line the greedy packing emits is nonempty. -/
theorem specPack_lines_ne_nil (m : ℕ) :
    ∀ (ws cur : List (List Char)), ∀ l ∈ specPack m cur ws, l ≠ [] := by
  intro ws
  induction ws with
  | nil =>
    intro cur l hl
    by_cases hc : cur = []
    · simp [specPack, hc] at hl
    · simp [specPack, hc] at hl
      simp [hl, hc]
  | cons w ws ih =>
    intro cur l hl
    simp only [specPack] at hl
    by_cases hc : cur ≠ [] ∧ (joinWords cur).length + 1 + w.length > m
    · rw [if_pos hc] at hl
      rcases List.mem_cons.mp hl with rfl | hl
      · exact hc.1
      · exact ih [w] l hl
    · rw [if_neg hc] at hl
      exact ih (cur ++ [w]) l hl

/-- Words produced by `wsSplit` are nonempty and whitespace-free. -/
theorem wsSplit_words :
    ∀ cs : List Char, ∀ w ∈ wsSplit cs, w ≠ [] ∧ ∀ x ∈ w, isWS x = false := by
  intro cs
  induction cs using wsSplit.induct with
  | case1 =>
    intro w hw
    simp [wsSplit] at hw
  | case2 c rest hws ih =>
    intro w hw
    rw [wsSplit, if_pos hws] at hw
    exact ih w hw
  | case3 c rest hws ih =>
    intro w hw
    rw [wsSplit, if_neg hws] at hw
    rcases List.mem_cons.mp hw with rfl | hw
    · refine ⟨by simp, ?_⟩
      intro x hx
      rcases List.mem_cons.mp hx with rfl | hx
      · exact Bool.not_eq_true _ ▸ (by simpa using hws)
      · have := List.mem_takeWhile_imp hx
        simpa using this
    · exact ih w hw

theorem dropWhile_heads (l : List Char) :
    stopHead (l.dropWhile (fun x => !isWS x)) ∧
      headNotBR (l.dropWhile (fun x => !isWS x)) := by
  induction l with
  | nil => exact ⟨trivial, trivial⟩
  | cons c rest ih =>
    by_cases h : (!isWS c) = true
    · rw [List.dropWhile_cons, if_pos h]
      exact ih
    · have hws : isWS c = true := by simpa using h
      rw [List.dropWhile_cons, if_neg h]
      refine ⟨Or.inr hws, ?_⟩
      have hf := isWS_char_facts c hws
      exact ⟨hf.2.1, hf.2.2.1, hf.2.2.2⟩

/-- On a text all of whose words are marker-free, the combined split
(tokenize) agrees with the plain whitespace split. -/
theorem tokenize_eq_wsSplit :
    ∀ cs : List Char, (∀ w ∈ wsSplit cs, brFree w = true) →
      tokenize cs = wsSplit cs := by
  intro cs
  induction cs using wsSplit.induct with
  | case1 =>
    intro _
    simp [tokenize, wsSplit]
  | case2 c rest hws ih =>
    intro h
    rw [tokenize_ws_cons c rest hws, wsSplit, if_pos hws]
    apply ih
    intro w hw
    apply h
    rw [wsSplit, if_pos hws]
    exact hw
  | case3 c rest hws ih =>
    intro h
    have hwsc : isWS c = false := by simpa using hws
    have hw₀ : brFree (c :: rest.takeWhile (fun x => !isWS x)) = true := by
      apply h
      rw [wsSplit, if_neg hws]
      exact List.mem_cons_self _ _
    obtain ⟨hbtc, hbft⟩ := brFree_cons_parts hw₀
    obtain ⟨hstop, hnbr⟩ := dropWhile_heads rest
    have hsplit : rest.takeWhile (fun x => !isWS x) ++
        rest.dropWhile (fun x => !isWS x) = rest :=
      List.takeWhile_append_dropWhile _ _
    have hbt : brTest c rest = false := by
      rw [← hsplit]
      exact brTest_append_false c _ _ hbtc hnbr
    have htws : ∀ x ∈ rest.takeWhile (fun y => !isWS y), isWS x = false := by
      intro x hx
      have := List.mem_takeWhile_imp hx
      simpa using this
    obtain ⟨htk, hdt⟩ := takeTok_dropTok_append
      (rest.takeWhile (fun x => !isWS x)) (rest.dropWhile (fun x => !isWS x))
      htws hbft hnbr hstop
    rw [hsplit] at htk hdt
    rw [wsSplit, if_neg hws]
    simp only [tokenize]
    rw [if_neg (by simp [hbt]), if_neg (by simp [hwsc]), htk, hdt]
    congr 1
    apply ih
    intro w hw
    apply h
    rw [wsSplit, if_neg hws]
    exact List.mem_cons_of_mem _ hw

/-- A concrete text whose single word contains the break marker. -/
def brText : String := ⟨['a', 'a', 'a', 'a', '<', 'b', 'r', '>', 'b', 'b', 'b', 'b']⟩

/-- A concrete marker-free text of three two-letter words. -/
def wText : String := ⟨['a', 'b', ' ', 'c', 'd', ' ', 'e', 'f']⟩

/-- C10 (counterexample): the claim says splitting the output on the
marker and on whitespace recovers the input's words for every string, but
a word that itself contains `'<br>'` is cut at the marker: on the one-word
text `aaaa<br>bbbb` the split of the (unchanged) output has two tokens
while the input has one word. -/
theorem C10_counterexample :
    tokenize (wrap_text brText 5).data ≠ wsSplit brText.data := by
  simp [brText, wrap_text, wsSplit, wrapStep, joinWords, joinBr, brMark,
    tokenize, takeTok, dropTok, brTest, isWS, List.takeWhile,
    List.dropWhile, List.take, List.drop, List.filter_cons]

/-- C10 (amended): for every input whose words do not contain the
`'<br>'` marker, splitting the output of `wrap_text` on the marker and on
whitespace yields exactly the whitespace-split words of the input, in
order; in particular no word is ever split across lines. -/
theorem C10_wrap_text_word_sequence (text : String) (maxLength : ℕ)
    (h : ∀ w ∈ wsSplit text.data, brFree w = true) :
    tokenize (wrap_text text maxLength).data = wsSplit text.data := by
  by_cases hlen : text.data.length ≤ maxLength
  · simp only [wrap_text, if_pos hlen]
    exact tokenize_eq_wsSplit text.data h
  · simp only [wrap_text, if_neg hlen]
    have hfold := foldl_wrapStep_eq_specPack maxLength (wsSplit text.data) [] [] 0 rfl
    simp only [List.nil_append] at hfold
    rw [hfold]
    have hwordprop : ∀ l ∈ specPack maxLength [] (wsSplit text.data),
        ∀ w ∈ l, w ≠ [] ∧ (∀ x ∈ w, isWS x = false) ∧ brFree w = true := by
      intro l hl w hw
      have hwmem : w ∈ wsSplit text.data := by
        have hfl := specPack_flatten maxLength (wsSplit text.data) []
        have hmem : w ∈ (specPack maxLength [] (wsSplit text.data)).flatten :=
          List.mem_flatten.mpr ⟨l, hl, hw⟩
        rw [hfl] at hmem
        simpa using hmem
      obtain ⟨h1, h2⟩ := wsSplit_words text.data w hwmem
      exact ⟨h1, h2, h w hwmem⟩
    rw [tokenize_joinBr_lines (specPack maxLength [] (wsSplit text.data))
      (specPack_lines_ne_nil maxLength (wsSplit text.data) []) hwordprop,
      specPack_flatten]
    simp

/-- Witness for `C10_wrap_text_word_sequence` at a concrete text. -/
theorem C10_wrap_text_word_sequence_witness :
    tokenize (wrap_text wText 4).data = wsSplit wText.data :=
  C10_wrap_text_word_sequence wText 4 (by
    simp [wText, wsSplit, brFree, brTest, isWS, List.takeWhile,
      List.dropWhile, List.take])
